import Mathlib

/-!
Verification development for the PlatinumBot achievement notifier
(src/index.mjs, src/unnamed/part_000).

The embedding follows src/index.mjs (the canonical file; part_000 is a
near-duplicate earlier revision).  Pure computations (snapshot diffing,
the DynamoDB size guardrail, the completion gate, the JSON byte
estimator) are translated directly.  The effectful per-user pipeline
processOneUser is embedded as a pure function from an environment that
records the outcome of each external call (Steam fetches, DynamoDB
get/put, Discord webhook posts) to the list of performed effects plus
the final result; a throwing call is an Except.error, which aborts the
pipeline exactly where the JavaScript exception would propagate.
The bounded-concurrency runner runWithConcurrency is embedded as a
labelled transition system over pool states, quantified over arbitrary
schedules, because the JavaScript version interleaves workers at await
points; the index counter handoff (idx++) is atomic in JavaScript and
is modelled as an atomic grab transition.
-/

namespace PlatinumBot

/-! ## Snapshot model and the diff computation (processOneUser, steps 1-2) -/

/-- One entry of the GetPlayerAchievements response:
`{apiname, achieved, unlocktime}`; a missing unlocktime is `none`
(JavaScript `a.unlocktime || 0` turns it into 0). -/
structure RawAch where
  apiname : String
  achieved : Int
  unlocktime : Option Int
deriving Repr, DecidableEq

/-- A projected unlocked achievement `{apiname, unlocktime}`. -/
structure UnlockedItem where
  apiname : String
  unlocktime : Int
deriving Repr, DecidableEq

/-- Stable insertion step for descending sort by unlocktime, matching the
JavaScript stable `sort((a, b) => b.unlocktime - a.unlocktime)`. -/
def insertByTimeDesc (a : UnlockedItem) : List UnlockedItem → List UnlockedItem
  | [] => [a]
  | b :: t => if a.unlocktime ≤ b.unlocktime then b :: insertByTimeDesc a t
              else a :: b :: t

/-- Stable descending sort by unlocktime. -/
def sortByTimeDesc (l : List UnlockedItem) : List UnlockedItem :=
  l.foldr insertByTimeDesc []

/-- `unlocked`: achieved entries, projected and sorted newest first
(src/index.mjs lines 381-384). -/
def unlockedOf (playerAch : List RawAch) : List UnlockedItem :=
  sortByTimeDesc ((playerAch.filter (fun a => a.achieved == 1)).map
    (fun a => ⟨a.apiname, a.unlocktime.getD 0⟩))

/-- `lockedApiNames` (src/index.mjs line 386). -/
def lockedApiNamesOf (playerAch : List RawAch) : List String :=
  (playerAch.filter (fun a => a.achieved == 0)).map (fun a => a.apiname)

/-- `unlockedApiNames` (src/index.mjs line 387). -/
def unlockedApiNamesOf (playerAch : List RawAch) : List String :=
  (unlockedOf playerAch).map (fun a => a.apiname)

/-- `unlockedRecent = unlocked.filter(a => a.unlocktime > 0 && a.unlocktime >= cutoff)`
(src/index.mjs line 398). -/
def recentUnlockedOf (unlocked : List UnlockedItem) (cutoff : Int) : List UnlockedItem :=
  unlocked.filter (fun a => decide (0 < a.unlocktime) && decide (cutoff ≤ a.unlocktime))

/-- JavaScript `Set.add` semantics on an insertion-ordered list. -/
def insertUnique (s : List String) (x : String) : List String :=
  if s.contains x then s else s ++ [x]

/-- JavaScript `new Set(list)` semantics: order-preserving dedup. -/
def setOfList (l : List String) : List String :=
  l.foldl insertUnique []

/-- The announced set in effect when `toPost` is computed: the loaded set
for an existing record, or the bootstrap seed of all currently unlocked
apiIds for a first-seen pair (src/index.mjs lines 395, 401-404). -/
def announcedStartOf (ex : Bool) (prior unlockedApiNames : List String) : List String :=
  if ex then setOfList prior else setOfList unlockedApiNames

/-- `toPost = exists ? unlockedRecent.filter(a => !announcedSet.has(a.apiname)) : unlockedRecent`
(src/index.mjs lines 406-408). -/
def toPostOf (ex : Bool) (recent : List UnlockedItem) (announcedSet : List String) :
    List UnlockedItem :=
  if ex then recent.filter (fun a => !(announcedSet.contains a.apiname)) else recent

/-- The diff step of one run: which achievements get posted. -/
def diffToPost (p : List RawAch) (ex : Bool) (prior : List String) (w now : Int) :
    List UnlockedItem :=
  toPostOf ex (recentUnlockedOf (unlockedOf p) (now - w))
    (announcedStartOf ex prior (unlockedApiNamesOf p))

/-- The announced set after one successful run: each posted item is added
in turn (the loop body `announcedSet.add(a.apiname)`, src/index.mjs line 499). -/
def diffAnnouncedAfter (p : List RawAch) (ex : Bool) (prior : List String) (w now : Int) :
    List String :=
  (diffToPost p ex prior w now).foldl (fun s a => insertUnique s a.apiname)
    (announcedStartOf ex prior (unlockedApiNamesOf p))

/-! ### Basic membership lemmas for the insertion-ordered set model -/

theorem mem_insertUnique (s : List String) (x y : String) :
    y ∈ insertUnique s x ↔ y ∈ s ∨ y = x := by
  unfold insertUnique
  by_cases h : x ∈ s
  · rw [if_pos (by simpa using h)]
    constructor
    · exact fun hy => Or.inl hy
    · rintro (hy | rfl)
      · exact hy
      · exact h
  · rw [if_neg (by simpa using h)]
    simp [List.mem_append]

theorem mem_foldl_insertUnique (l : List UnlockedItem) (s : List String) (y : String) :
    y ∈ l.foldl (fun s a => insertUnique s a.apiname) s ↔
      y ∈ s ∨ ∃ a ∈ l, a.apiname = y := by
  induction l generalizing s with
  | nil => simp
  | cons a t ih =>
    simp only [List.foldl_cons, ih, mem_insertUnique, List.mem_cons]
    constructor
    · rintro ((hy | rfl) | ⟨b, hb, rfl⟩)
      · exact Or.inl hy
      · exact Or.inr ⟨a, Or.inl rfl, rfl⟩
      · exact Or.inr ⟨b, Or.inr hb, rfl⟩
    · rintro (hy | ⟨b, hb | hb, rfl⟩)
      · exact Or.inl (Or.inl hy)
      · exact Or.inl (Or.inr (by rw [hb]))
      · exact Or.inr ⟨b, hb, rfl⟩

theorem mem_setOfList (l : List String) (y : String) :
    y ∈ setOfList l ↔ y ∈ l := by
  unfold setOfList
  suffices h : ∀ s : List String, y ∈ l.foldl insertUnique s ↔ y ∈ s ∨ y ∈ l by
    simpa using h []
  induction l with
  | nil => intro s; simp
  | cons a t ih =>
    intro s
    simp only [List.foldl_cons, ih, mem_insertUnique, List.mem_cons]
    tauto

/-! ## JSON serialization and UTF-8 byte counting (approxUtf8Bytes) -/

/-- A JSON value, as produced by `JSON.stringify` on the persisted item. -/
inductive JVal where
  | str (s : String)
  | num (n : Int)
  | bool (b : Bool)
  | null
  | arr (elems : List JVal)
  | obj (fields : List (String × JVal))

/-- Hex digit for a JSON control-character escape (lower case, as
`JSON.stringify` emits). -/
def hexDigit (n : Nat) : Char :=
  if n < 10 then Char.ofNat (48 + n) else Char.ofNat (87 + n)

/-- The escape sequence `JSON.stringify` emits for one character. -/
def jsonEscapeChar (c : Char) : String :=
  if c = '"' then "\\\""
  else if c = '\\' then "\\\\"
  else if c = '\x08' then "\\b"
  else if c = '\x09' then "\\t"
  else if c = '\x0a' then "\\n"
  else if c = '\x0c' then "\\f"
  else if c = '\x0d' then "\\r"
  else if c.val < 0x20 then
    "\\u00" ++ String.singleton (hexDigit (c.toNat / 16)) ++
      String.singleton (hexDigit (c.toNat % 16))
  else String.singleton c

/-- A JSON string literal with its quotes. -/
def jsonQuote (s : String) : String :=
  "\"" ++ String.join (s.toList.map jsonEscapeChar) ++ "\""

mutual

/-- `JSON.stringify` for the value model (no spacing, like the source). -/
def JVal.serialize : JVal → String
  | .str s => jsonQuote s
  | .num n => toString n
  | .bool b => if b then "true" else "false"
  | .null => "null"
  | .arr es => "[" ++ serializeElems es ++ "]"
  | .obj fs => "\x7b" ++ serializeFields fs ++ "\x7d"

/-- Comma-separated serialization of array elements. -/
def serializeElems : List JVal → String
  | [] => ""
  | [v] => JVal.serialize v
  | v :: rest => JVal.serialize v ++ "," ++ serializeElems rest

/-- Comma-separated serialization of object fields. -/
def serializeFields : List (String × JVal) → String
  | [] => ""
  | [kv] => jsonQuote kv.1 ++ ":" ++ JVal.serialize kv.2
  | kv :: rest => jsonQuote kv.1 ++ ":" ++ JVal.serialize kv.2 ++ "," ++ serializeFields rest

end

/-- UTF-8 size of one character, the rule `Buffer.byteLength(s, "utf8")`
applies per code point. -/
def charUtf8Bytes (c : Char) : Nat :=
  if c.val < 0x80 then 1 else if c.val < 0x800 then 2
  else if c.val < 0x10000 then 3 else 4

/-- UTF-8 byte length of a string. -/
def strUtf8Bytes (s : String) : Nat :=
  s.toList.foldl (fun n c => n + charUtf8Bytes c) 0

/-- `approxUtf8Bytes(obj) = Buffer.byteLength(JSON.stringify(obj), "utf8")`
(src/index.mjs lines 147-150). -/
def approxUtf8Bytes (v : JVal) : Nat :=
  strUtf8Bytes v.serialize

/-! ## The persisted item as an ordered key-value object -/

/-- A JavaScript object: insertion-ordered fields with distinct keys. -/
def JObj := List (String × JVal)

/-- Field lookup, `item[k]`. -/
def lookupKey (o : JObj) (k : String) : Option JVal :=
  match o with
  | [] => none
  | kv :: rest => if kv.1 = k then some kv.2 else lookupKey rest k

/-- `delete item[k]` (also the net effect of spreading `k: undefined`
and then deleting undefined keys). -/
def removeKey (o : JObj) (k : String) : JObj :=
  match o with
  | [] => []
  | kv :: rest => if kv.1 = k then removeKey rest k else kv :: removeKey rest k

/-- `item[k] = v`: overwrite in place when the key exists, else append. -/
def setKey (o : JObj) (k : String) (v : JVal) : JObj :=
  match o with
  | [] => [(k, v)]
  | kv :: rest => if kv.1 = k then (k, v) :: rest else kv :: setKey rest k v

/-! ## The DynamoDB size guardrail (applyDdbSizeGuardrail) -/

/-- Result of the guardrail: the (possibly trimmed) item, the truncation
flag and the final approximate byte size. -/
structure GuardrailResult where
  item : JObj
  truncated : Bool
  bytes : Nat

/-- The single trimming step of the guardrail: the spread that sets
`unlockedApiNames`, `lockedApiNames` and `unannouncedUnlockedApiNames`
to undefined (all three at once), the removal of undefined keys, and the
markers `arraysTruncated` and `approxBytesBeforeTruncate`
(src/index.mjs lines 160-171). -/
def trimLargeArrays (item : JObj) (initialBytes : Nat) : JObj :=
  setKey (setKey (removeKey (removeKey (removeKey item "unlockedApiNames")
      "lockedApiNames") "unannouncedUnlockedApiNames")
    "arraysTruncated" (.bool true))
    "approxBytesBeforeTruncate" (.num initialBytes)

/-- `applyDdbSizeGuardrail` (src/index.mjs lines 152-184), parametrized by
the configured `MAX_ITEM_BYTES`. -/
def applyDdbSizeGuardrail (maxItemBytes : Nat) (item : JObj) : GuardrailResult :=
  let initialBytes := approxUtf8Bytes (.obj item)
  if initialBytes ≤ maxItemBytes then
    { item := item, truncated := false, bytes := initialBytes }
  else
    let trimmed := trimLargeArrays item initialBytes
    let finalBytes := approxUtf8Bytes (.obj trimmed)
    if maxItemBytes < finalBytes then
      let trimmed2 := setKey (removeKey trimmed "announcedApiNames")
        "announcedDropped" (.bool true)
      { item := trimmed2, truncated := true, bytes := approxUtf8Bytes (.obj trimmed2) }
    else
      { item := trimmed, truncated := true, bytes := finalBytes }

/-! ### Lookup lemmas for the object operations -/

theorem lookupKey_removeKey (o : JObj) (k k2 : String) :
    lookupKey (removeKey o k) k2 = if k2 = k then none else lookupKey o k2 := by
  induction o with
  | nil => simp [removeKey, lookupKey]
  | cons kv rest ih =>
    by_cases h1 : kv.1 = k
    · rw [show removeKey (kv :: rest) k = removeKey rest k by simp [removeKey, h1], ih]
      by_cases h2 : k2 = k
      · simp [h2]
      · have h3 : ¬ kv.1 = k2 := by rw [h1]; intro he; exact h2 he.symm
        simp [lookupKey, h2, h3]
    · rw [show removeKey (kv :: rest) k = kv :: removeKey rest k by simp [removeKey, h1]]
      by_cases h2 : k2 = k
      · subst h2
        simp [lookupKey, h1, ih]
      · simp [lookupKey, ih, h2]

theorem lookupKey_setKey_ne (o : JObj) (k k2 : String) (v : JVal) (h : k2 ≠ k) :
    lookupKey (setKey o k v) k2 = lookupKey o k2 := by
  induction o with
  | nil =>
    have hk : ¬ k = k2 := fun he => h he.symm
    simp [setKey, lookupKey, hk]
  | cons kv rest ih =>
    by_cases h1 : kv.1 = k
    · have h3 : ¬ k = k2 := fun he => h he.symm
      have h4 : ¬ kv.1 = k2 := by rw [h1]; exact h3
      rw [show setKey (kv :: rest) k v = (k, v) :: rest by simp [setKey, h1]]
      simp [lookupKey, h3, h4]
    · rw [show setKey (kv :: rest) k v = kv :: setKey rest k v by simp [setKey, h1]]
      simp [lookupKey, ih]

/-! ## The per-user pipeline (processOneUser)

The pipeline is embedded as a pure function from an environment that
fixes the outcome of every external call to the pair
(performed effects, final Except result).  A `.error` outcome of a call
is the JavaScript exception propagating out of processOneUser; effects
performed before the failing call are kept in the trace.  Discord embed
bodies, rarity percentages and log lines are presentation only and are
not modelled; the notify effect records which achievement was sent. -/

/-- The game selected by resolveTargetGame. -/
structure Target where
  appid : String
  gameTitle : String
deriving Repr, DecidableEq

/-- The parts of the GetSchemaForGame response the pipeline reads. -/
structure Schema where
  schemaGameName : Option String
  totalCount : Nat
deriving Repr, DecidableEq

/-- The stored DynamoDB record as getState reads it: the two possible
announced-list attributes and the platinum flag (coerced with `!!`). -/
structure DbState where
  announcedApiNames : Option (List String)
  announcedLegacy : Option (List String)
  platinumAnnounced : Bool
deriving Repr, DecidableEq

/-- Per-user configuration values (env/config parsing is external). -/
structure UserCfg where
  name : String
  steamId : String
  windowSeconds : Int
  maxItemBytes : Nat

/-- Outcomes of the external calls one processOneUser run can make, plus
the clock read.  `playerFetch = .ok none` is a 200 response whose body
has no `playerstats.achievements` (the malformed-body case);
`discordSend k` is the outcome of the k-th webhook post of this run. -/
structure Env where
  resolveGame : Except String (Option Target)
  playerFetch : Except String (Option (List RawAch))
  getState : Except String (Option DbState)
  schemaFetch : Except String Schema
  rarityFetch : Except String Unit
  discordSend : Nat → Except String Unit
  platinumSend : Except String Unit
  putState : Except String Unit
  nowSec : Int

/-- Externally visible side effects of one run. -/
inductive Effect where
  | notify (apiname : String)
  | logEvent (apiname : String)
  | celebrate
  | save (item : JObj)

/-- The object processOneUser returns. -/
structure RunResult where
  ok : Bool
  name : String
  posted : Nat
  platinum : Bool
  appid : Option String
  gameTitle : Option String
  progressText : Option String
  reason : Option String

/-- `announcedApiNames = out.Item?.announcedApiNames ?? out.Item?.announced ?? []`
(src/index.mjs line 191). -/
def loadedAnnounced (st : Option DbState) : List String :=
  match st with
  | some d => (d.announcedApiNames <|> d.announcedLegacy).getD []
  | none => []

/-- `platinumAnnounced = !!out.Item?.platinumAnnounced` (src/index.mjs line 192). -/
def loadedPlatinum (st : Option DbState) : Bool :=
  match st with
  | some d => d.platinumAnnounced
  | none => false

/-- `percent(numer, denom)` (src/index.mjs lines 73-76).  The source
computes `Math.floor((numer / denom) * 100)` in floating point; it is
embedded as exact integer arithmetic. -/
def percent (numer denom : Nat) : Nat :=
  if denom = 0 then 0 else numer * 100 / denom

/-- The progress string `` `${unlockedCount}/${totalAchievements} (${pctComplete}%)` ``. -/
def progressTextOf (unlockedCount totalAchievements : Nat) : String :=
  toString unlockedCount ++ "/" ++ toString totalAchievements ++ " (" ++
    toString (percent unlockedCount totalAchievements) ++ "%)"

/-- The completion gate of one run: celebrate when something was posted,
the run is at 100% and the latch is not yet set; the new latch value is
the old one or the celebration (src/index.mjs lines 504-507 and 527). -/
def gateStep (isComplete priorLatched announcedThisRun : Bool) : Bool × Bool :=
  let shouldCelebrate := announcedThisRun && isComplete && !priorLatched
  (shouldCelebrate, priorLatched || shouldCelebrate)

/-- The lazy schema/rarity block (src/index.mjs lines 410-431): when
nothing is to be posted neither call happens and totalCount stays
unknown; otherwise both calls must succeed, totalCount comes from the
schema, and an empty resolved title falls back to the schema name. -/
def schemaStep (env : Env) (target : Target) (noPost : Bool) :
    Except String (Option Nat × String) :=
  if noPost then .ok (none, target.gameTitle)
  else
    match env.schemaFetch with
    | .error e => .error e
    | .ok schema =>
      match env.rarityFetch with
      | .error e => .error e
      | .ok _ =>
        let gt := if target.gameTitle = "" then
            (match schema.schemaGameName with
             | some s => if s = "" then target.gameTitle else s
             | none => target.gameTitle)
          else target.gameTitle
        .ok (some schema.totalCount, gt)

/-- The posting loop (src/index.mjs lines 453-500): for each item post
the embed (abort on webhook failure), record the leaderboard event
(its errors are swallowed in the source, so it cannot fail), and add the
apiname to the announced set.  `k` counts the webhook posts already made. -/
def postLoop (send : Nat → Except String Unit) (k : Nat) (announced : List String) :
    List UnlockedItem → List Effect × Except String (List String)
  | [] => ([], .ok announced)
  | a :: rest =>
    match send k with
    | .error e => ([], .error e)
    | .ok _ =>
      let next := postLoop send (k + 1) (insertUnique announced a.apiname) rest
      (Effect.notify a.apiname :: Effect.logEvent a.apiname :: next.1, next.2)

/-- `totalAchievements`: the schema count when known, else the
unlocked+locked fallback from the player list (src/index.mjs lines 438-439). -/
def totalAchievementsRun (p : List RawAch) (totalCount : Option Nat) : Nat :=
  totalCount.getD ((unlockedApiNamesOf p).length + (lockedApiNamesOf p).length)

/-- `isPlatinum = totalAchievements > 0 && unlockedCount === totalAchievements`
(src/index.mjs line 445). -/
def isPlatinumRun (p : List RawAch) (totalCount : Option Nat) : Bool :=
  decide (0 < totalAchievementsRun p totalCount) &&
    decide ((unlockedApiNamesOf p).length = totalAchievementsRun p totalCount)

/-- The announced set in effect for this run (src/index.mjs lines 395, 401-404). -/
def announcedStartRun (p : List RawAch) (st : Option DbState) : List String :=
  announcedStartOf st.isSome (loadedAnnounced st) (unlockedApiNamesOf p)

/-- The achievements this run posts (src/index.mjs lines 406-408). -/
def toPostRun (cfg : UserCfg) (env : Env) (p : List RawAch) (st : Option DbState) :
    List UnlockedItem :=
  toPostOf st.isSome (recentUnlockedOf (unlockedOf p) (env.nowSec - cfg.windowSeconds))
    (announcedStartRun p st)

/-- The rich record persisted every run (src/index.mjs lines 510-529),
with the field order of the object literal. -/
def buildItem (pk nm steamId appid gameTitle : String)
    (totalAchievements unlockedCount lockedCount : Nat) (progressText : String)
    (unlockedApiNames lockedApiNames announcedList unannounced : List String)
    (platinumFlag : Bool) (nowSec : Int) : JObj :=
  [("PK", .str pk), ("name", .str nm), ("steamId", .str steamId), ("appid", .str appid),
   ("gameTitle", .str gameTitle), ("totalAchievements", .num totalAchievements),
   ("unlockedCount", .num unlockedCount), ("lockedCount", .num lockedCount),
   ("progressText", .str progressText),
   ("unlockedApiNames", .arr (unlockedApiNames.map JVal.str)),
   ("lockedApiNames", .arr (lockedApiNames.map JVal.str)),
   ("announcedApiNames", .arr (announcedList.map JVal.str)),
   ("unannouncedUnlockedApiNames", .arr (unannounced.map JVal.str)),
   ("platinumAnnounced", .bool platinumFlag), ("updatedAt", .num nowSec)]

/-- The item this run persists, given the schema outcome and the
announced set after the posting loop. -/
def runItem (cfg : UserCfg) (env : Env) (target : Target) (p : List RawAch)
    (st : Option DbState) (totalCount : Option Nat) (gameTitle : String)
    (announcedFinal : List String) : JObj :=
  buildItem ("steam#" ++ cfg.steamId ++ "#app#" ++ target.appid) cfg.name cfg.steamId
    target.appid gameTitle (totalAchievementsRun p totalCount)
    (unlockedApiNamesOf p).length (lockedApiNamesOf p).length
    (progressTextOf (unlockedApiNamesOf p).length (totalAchievementsRun p totalCount))
    (unlockedApiNamesOf p) (lockedApiNamesOf p) announcedFinal
    ((unlockedApiNamesOf p).filter (fun api => !(announcedFinal.contains api)))
    ((gateStep (isPlatinumRun p totalCount) (loadedPlatinum st)
        (!(toPostRun cfg env p st).isEmpty)).2)
    env.nowSec

/-- The celebration effect list of a run (empty when the gate does not fire). -/
def celebEffects (cfg : UserCfg) (env : Env) (p : List RawAch) (st : Option DbState)
    (tcgt : Option Nat × String) : List Effect :=
  if (gateStep (isPlatinumRun p tcgt.1) (loadedPlatinum st)
      (!(toPostRun cfg env p st).isEmpty)).1 then [Effect.celebrate] else []

/-- Step 7 of processOneUser: persist the record through the guardrail
(src/index.mjs lines 509-531). -/
def persistStage (cfg : UserCfg) (env : Env) (target : Target) (p : List RawAch)
    (st : Option DbState) (tcgt : Option Nat × String) (announcedFinal : List String) :
    List Effect × Except String RunResult :=
  match env.putState with
  | .error e =>
    ((postLoop env.discordSend 0 (announcedStartRun p st) (toPostRun cfg env p st)).1 ++
      celebEffects cfg env p st tcgt, .error e)
  | .ok _ =>
    ((postLoop env.discordSend 0 (announcedStartRun p st) (toPostRun cfg env p st)).1 ++
      celebEffects cfg env p st tcgt ++
      [Effect.save (applyDdbSizeGuardrail cfg.maxItemBytes
        (runItem cfg env target p st tcgt.1 tcgt.2 announcedFinal)).item],
     .ok { ok := true, name := cfg.name, posted := (toPostRun cfg env p st).length,
           platinum := isPlatinumRun p tcgt.1, appid := some target.appid,
           gameTitle := some tcgt.2,
           progressText := some (progressTextOf (unlockedApiNamesOf p).length
             (totalAchievementsRun p tcgt.1)),
           reason := none })

/-- Step 6 of processOneUser: the platinum celebration post, gated by the
completion gate (src/index.mjs lines 503-507). -/
def celebrateStage (cfg : UserCfg) (env : Env) (target : Target) (p : List RawAch)
    (st : Option DbState) (tcgt : Option Nat × String) (announcedFinal : List String) :
    List Effect × Except String RunResult :=
  match (if (gateStep (isPlatinumRun p tcgt.1) (loadedPlatinum st)
      (!(toPostRun cfg env p st).isEmpty)).1 then env.platinumSend else .ok ()) with
  | .error e =>
    ((postLoop env.discordSend 0 (announcedStartRun p st) (toPostRun cfg env p st)).1,
     .error e)
  | .ok _ => persistStage cfg env target p st tcgt announcedFinal

/-- Step 5 of processOneUser: the posting loop (src/index.mjs lines 447-501). -/
def loopStage (cfg : UserCfg) (env : Env) (target : Target) (p : List RawAch)
    (st : Option DbState) (tcgt : Option Nat × String) :
    List Effect × Except String RunResult :=
  match (postLoop env.discordSend 0 (announcedStartRun p st) (toPostRun cfg env p st)).2 with
  | .error e =>
    ((postLoop env.discordSend 0 (announcedStartRun p st) (toPostRun cfg env p st)).1,
     .error e)
  | .ok announcedFinal => celebrateStage cfg env target p st tcgt announcedFinal

/-- Steps 2-7 of processOneUser, after the game was resolved, the player
snapshot fetched (already coerced with `?? []`) and the state loaded. -/
def processCore (cfg : UserCfg) (env : Env) (target : Target) (p : List RawAch)
    (st : Option DbState) : List Effect × Except String RunResult :=
  match schemaStep env target (toPostRun cfg env p st).isEmpty with
  | .error e => ([], .error e)
  | .ok tcgt => loopStage cfg env target p st tcgt

/-- One full processOneUser run (src/index.mjs lines 352-535): resolve
the game (no game means an ok result with nothing posted), fetch the
player snapshot (`playerJson?.playerstats?.achievements ?? []` coerces a
malformed body to the empty list), load the ledger state, then run the
core steps. -/
def processOneUser (cfg : UserCfg) (env : Env) : List Effect × Except String RunResult :=
  match env.resolveGame with
  | .error e => ([], .error e)
  | .ok none =>
    ([], .ok { ok := true, name := cfg.name, posted := 0, platinum := false,
               appid := none, gameTitle := none, progressText := none,
               reason := some "no_current_or_recent_game" })
  | .ok (some target) =>
    match env.playerFetch with
    | .error e => ([], .error e)
    | .ok pj =>
      match env.getState with
      | .error e => ([], .error e)
      | .ok st => processCore cfg env target (pj.getD []) st

/-! ## The bounded-concurrency batch runner (runWithConcurrency)

src/index.mjs lines 539-558.  Each runner repeatedly executes
`const current = idx++` (atomic: no await separates the read and the
increment), returns when `current >= items.length`, otherwise awaits the
worker on `items[current]` and writes the settled outcome into
`results[current]`.  The interleaving of the runners is modelled by an
arbitrary schedule of grab/finish transitions; the worker is a pure
function of the unit, so a finish writes a value determined by the slot. -/

/-- What one runner is doing. -/
inductive RunnerState where
  | idle
  | working (i : Nat)
  | done
deriving Repr, DecidableEq

/-- The value stored into a result slot: the worker result, or the
`{ok: false, error}` record built in the catch branch. -/
inductive SlotResult (β : Type) where
  | ok (v : β)
  | err (e : String)
deriving Repr, DecidableEq

/-- try/catch around one worker call. -/
def settle {α β : Type} (worker : α → Except String β) (x : α) : SlotResult β :=
  match worker x with
  | .ok v => .ok v
  | .error e => .err e

/-- Shared state of the pool: the index counter, the runner states and
the results array (a slot is `none` while unwritten). -/
structure PoolState (β : Type) where
  idx : Nat
  runners : List RunnerState
  results : List (Option (SlotResult β))
deriving Repr, DecidableEq

/-- A scheduling decision: which runner grabs the counter, or which
runner finishes its current unit. -/
inductive PoolAction where
  | grab (r : Nat)
  | finish (r : Nat)
deriving Repr, DecidableEq

/-- One transition; `none` when the chosen action is not enabled. -/
def poolStep {α β : Type} (worker : α → Except String β) (items : List α)
    (a : PoolAction) (s : PoolState β) : Option (PoolState β) :=
  match a with
  | .grab r =>
    match s.runners[r]? with
    | some .idle =>
      if s.idx < items.length then
        some { idx := s.idx + 1, runners := s.runners.set r (.working s.idx),
               results := s.results }
      else
        some { s with runners := s.runners.set r .done }
    | _ => none
  | .finish r =>
    match s.runners[r]? with
    | some (.working i) =>
      match items[i]? with
      | some it =>
        some { s with runners := s.runners.set r .idle,
                      results := s.results.set i (some (settle worker it)) }
      | none => none
    | _ => none

/-- Run a whole schedule. -/
def poolRun {α β : Type} (worker : α → Except String β) (items : List α) :
    List PoolAction → PoolState β → Option (PoolState β)
  | [], s => some s
  | a :: rest, s =>
    match poolStep worker items a s with
    | some s2 => poolRun worker items rest s2
    | none => none

/-- The initial pool: `Math.min(concurrency, items.length)` idle runners,
an unwritten result slot per item, counter at zero. -/
def initPool (β : Type) (concurrency : Nat) {α : Type} (items : List α) : PoolState β :=
  { idx := 0, runners := List.replicate (min concurrency items.length) .idle,
    results := List.replicate items.length none }

/-- `Promise.all(runners)` has resolved: every runner returned. -/
def isFinal {β : Type} (s : PoolState β) : Bool :=
  s.runners.all (fun r => r == .done)

/-- The index (if any) handed out by one action in one state. -/
def grabHead {α β : Type} (items : List α) (a : PoolAction) (s : PoolState β) : List Nat :=
  match a with
  | .grab r =>
    if s.runners[r]? = some RunnerState.idle ∧ s.idx < items.length then [s.idx] else []
  | .finish _ => []

/-- The indices handed out by the grab transitions of a schedule, in
order (each is the value of the counter at its grab). -/
def grabAssignments {α β : Type} (worker : α → Except String β) (items : List α) :
    List PoolAction → PoolState β → List Nat
  | [], _ => []
  | a :: rest, s =>
    match poolStep worker items a s with
    | none => []
    | some s2 => grabHead items a s ++ grabAssignments worker items rest s2

/-- A sequence of completion-gate evaluations for one pair: each input is
(isComplete, announcedThisRun), the latch is threaded through, and the
list of shouldCelebrate outputs is returned. -/
def gateTrace (inputs : List (Bool × Bool)) (latch : Bool) : List Bool :=
  match inputs with
  | [] => []
  | ci :: rest =>
    (gateStep ci.1 latch ci.2).1 :: gateTrace rest (gateStep ci.1 latch ci.2).2

/-! ## Helper lemmas about the diff computation -/

theorem mem_recentUnlockedOf (u : List UnlockedItem) (c : Int) (a : UnlockedItem) :
    a ∈ recentUnlockedOf u c ↔ a ∈ u ∧ 0 < a.unlocktime ∧ c ≤ a.unlocktime := by
  simp [recentUnlockedOf, List.mem_filter, and_assoc]

theorem mem_apiname_of_mem_unlocked (p : List RawAch) (a : UnlockedItem)
    (h : a ∈ unlockedOf p) : a.apiname ∈ unlockedApiNamesOf p :=
  List.mem_map_of_mem (fun a => a.apiname) h

theorem mem_diffAnnouncedAfter (p : List RawAch) (ex : Bool) (prior : List String)
    (w now : Int) (x : String) :
    x ∈ diffAnnouncedAfter p ex prior w now ↔
      x ∈ announcedStartOf ex prior (unlockedApiNamesOf p) ∨
        ∃ a ∈ diffToPost p ex prior w now, a.apiname = x := by
  unfold diffAnnouncedAfter
  rw [mem_foldl_insertUnique]

theorem diffToPost_subset_recent (p : List RawAch) (ex : Bool) (prior : List String)
    (w now : Int) (a : UnlockedItem) (h : a ∈ diffToPost p ex prior w now) :
    a ∈ recentUnlockedOf (unlockedOf p) (now - w) := by
  unfold diffToPost toPostOf at h
  by_cases hex : ex = true
  · rw [hex, if_pos rfl] at h
    exact (List.mem_filter.mp h).1
  · rw [if_neg hex] at h
    exact h

/-! ## Claim theorems: the diff algorithm -/

/-- C1, counterexample: on a first-seen pair (no prior ledger record) with
one achievement unlocked inside the recency window, the run does announce
it — `toAnnounce` is not empty, refuting the claim that the bootstrap
announces nothing regardless of timestamps.  The spec example
(no prior ledger, snapshot `[(A, unlocked, t=10), (B, locked)]`,
window 60, now 20, expecting `toAnnounce = []`) fails the same way. -/
theorem bootstrap_announces_recent_counterexample :
    diffToPost [⟨"A", 1, some 10⟩, ⟨"B", 0, none⟩] false [] 60 20 =
      [⟨"A", 10⟩] ∧ ¬ diffToPost [⟨"A", 1, some 10⟩, ⟨"B", 0, none⟩] false [] 60 20 = [] := by
  constructor
  · rfl
  · decide

/-- C1, amended: on a first-seen pair the announced set is seeded with
every currently unlocked apiId (so the resulting announced set is exactly
the set of unlocked apiIds, regardless of timestamps), but `toAnnounce` is the list
of recently unlocked items, not the empty list: the bootstrap suppresses
only achievements outside the recency window. -/
theorem bootstrap_diff_amended (p : List RawAch) (prior : List String) (w now : Int) :
    diffToPost p false prior w now = recentUnlockedOf (unlockedOf p) (now - w)
    ∧ ∀ x, x ∈ diffAnnouncedAfter p false prior w now ↔ x ∈ unlockedApiNamesOf p := by
  constructor
  · rfl
  · intro x
    rw [mem_diffAnnouncedAfter]
    constructor
    · rintro (hx | ⟨a, ha, rfl⟩)
      · simpa [announcedStartOf, mem_setOfList] using hx
      · exact mem_apiname_of_mem_unlocked p a
          ((mem_recentUnlockedOf _ _ _).mp (diffToPost_subset_recent p false prior w now a ha)).1
    · intro hx
      exact Or.inl (by simpa [announcedStartOf, mem_setOfList] using hx)

/-- C6: running the diff twice on an unchanged snapshot, the second run
loading the announced set the first run produced (and a clock that did
not go backwards), yields an empty `toAnnounce` on the second run. -/
theorem no_double_notification (p : List RawAch) (ex : Bool) (prior : List String)
    (w n1 n2 : Int) (h : n1 ≤ n2) :
    diffToPost p true (diffAnnouncedAfter p ex prior w n1) w n2 = [] := by
  unfold diffToPost toPostOf announcedStartOf
  rw [if_pos rfl, if_pos rfl, List.filter_eq_nil_iff]
  intro a ha
  have hmem : a.apiname ∈ diffAnnouncedAfter p ex prior w n1 := by
    have h2 := (mem_recentUnlockedOf _ _ _).mp ha
    have hrec1 : a ∈ recentUnlockedOf (unlockedOf p) (n1 - w) :=
      (mem_recentUnlockedOf _ _ _).mpr ⟨h2.1, h2.2.1, le_trans (by omega) h2.2.2⟩
    rw [mem_diffAnnouncedAfter]
    by_cases hex : ex = true
    · subst hex
      by_cases hstart : a.apiname ∈ announcedStartOf true prior (unlockedApiNamesOf p)
      · exact Or.inl hstart
      · refine Or.inr ⟨a, ?_, rfl⟩
        unfold diffToPost toPostOf
        rw [if_pos rfl]
        refine List.mem_filter.mpr ⟨hrec1, ?_⟩
        simpa [announcedStartOf] using hstart
    · have hex2 : ex = false := by revert hex; cases ex <;> simp
      subst hex2
      exact Or.inl (by
        simpa [announcedStartOf, mem_setOfList] using
          mem_apiname_of_mem_unlocked p a h2.1)
  simpa [mem_setOfList] using hmem

/-- C6, witness. -/
theorem no_double_notification_witness :
    diffToPost [⟨"A", 1, some 100⟩] true
      (diffAnnouncedAfter [⟨"A", 1, some 100⟩] true [] 60 120) 60 125 = [] :=
  no_double_notification [⟨"A", 1, some 100⟩] true [] 60 120 125 (by decide)

/-- C10: an unlocked snapshot item is in `recentUnlocked` exactly when its
unlock time is strictly positive and at least `now - windowSec`; at the
boundary `now - windowSec` it is included, at `now - windowSec - 1` it is
excluded, and an unlocked item with timestamp 0 never appears in
`toAnnounce` of any run, bootstrap or steady state. -/
theorem recency_eligibility (p : List RawAch) (w now : Int) (a : UnlockedItem) :
    (a ∈ recentUnlockedOf (unlockedOf p) (now - w) ↔
      a ∈ unlockedOf p ∧ 0 < a.unlocktime ∧ now - w ≤ a.unlocktime)
    ∧ (a ∈ unlockedOf p → a.unlocktime = now - w → 0 < a.unlocktime →
        a ∈ recentUnlockedOf (unlockedOf p) (now - w))
    ∧ (a.unlocktime = now - w - 1 → a ∉ recentUnlockedOf (unlockedOf p) (now - w))
    ∧ (a.unlocktime = 0 → ∀ ex prior, a ∉ diffToPost p ex prior w now) := by
  refine ⟨mem_recentUnlockedOf _ _ _, ?_, ?_, ?_⟩
  · intro hu ht hpos
    exact (mem_recentUnlockedOf _ _ _).mpr ⟨hu, hpos, le_of_eq ht.symm⟩
  · intro ht hmem
    have h2 := (mem_recentUnlockedOf _ _ _).mp hmem
    omega
  · intro ht ex prior hmem
    have h2 := (mem_recentUnlockedOf _ _ _).mp
      (diffToPost_subset_recent p ex prior w now a hmem)
    omega

/-- C10, witness. -/
theorem recency_eligibility_witness :
    ⟨"A", 60⟩ ∈ recentUnlockedOf (unlockedOf [⟨"A", 1, some 60⟩]) (120 - 60) ∧
      (⟨"B", 0⟩ : UnlockedItem) ∉ diffToPost [⟨"B", 1, some 0⟩] true [] 60 120 := by
  have h := recency_eligibility [⟨"A", 1, some 60⟩] 60 120 ⟨"A", 60⟩
  have h0 := recency_eligibility [⟨"B", 1, some 0⟩] 60 120 ⟨"B", 0⟩
  exact ⟨h.2.1 (by decide) (by decide) (by decide), h0.2.2.2 (by decide) true []⟩

/-- C7: the completion gate fires exactly when the run is complete, the
latch was not yet set and something was announced this run; the new latch
is the old latch or the celebration; starting from a set latch, no later
evaluation ever celebrates again whatever isComplete does; and the size
guardrail never drops the persisted latch field. -/
theorem completion_gate_spec (c p a : Bool) (inputs : List (Bool × Bool)) :
    (gateStep c p a).1 = (a && c && !p)
    ∧ (gateStep c p a).2 = (p || (gateStep c p a).1)
    ∧ (gateTrace inputs true).all (fun b => b == false) = true
    ∧ ∀ maxB itm, lookupKey (applyDdbSizeGuardrail maxB itm).item "platinumAnnounced" =
        lookupKey itm "platinumAnnounced" := by
  refine ⟨rfl, rfl, ?_, ?_⟩
  · induction inputs with
    | nil => rfl
    | cons ci rest ih =>
      have hstep : gateStep ci.1 true ci.2 = (false, true) := by
        simp [gateStep]
      simp only [gateTrace, hstep, List.all_cons]
      simpa using ih
  · intro maxB itm
    unfold applyDdbSizeGuardrail
    by_cases h1 : approxUtf8Bytes (.obj itm) ≤ maxB
    · rw [if_pos h1]
    · rw [if_neg h1]
      by_cases h2 : maxB < approxUtf8Bytes (.obj (trimLargeArrays itm (approxUtf8Bytes (.obj itm))))
      · rw [if_pos h2]
        show lookupKey (setKey (removeKey (trimLargeArrays itm _) "announcedApiNames")
          "announcedDropped" (.bool true)) "platinumAnnounced" = _
        rw [lookupKey_setKey_ne _ _ _ _ (by decide), lookupKey_removeKey,
          if_neg (by decide)]
        unfold trimLargeArrays
        rw [lookupKey_setKey_ne _ _ _ _ (by decide), lookupKey_setKey_ne _ _ _ _ (by decide),
          lookupKey_removeKey, if_neg (by decide), lookupKey_removeKey, if_neg (by decide),
          lookupKey_removeKey, if_neg (by decide)]
      · rw [if_neg h2]
        show lookupKey (trimLargeArrays itm _) "platinumAnnounced" = _
        unfold trimLargeArrays
        rw [lookupKey_setKey_ne _ _ _ _ (by decide), lookupKey_setKey_ne _ _ _ _ (by decide),
          lookupKey_removeKey, if_neg (by decide), lookupKey_removeKey, if_neg (by decide),
          lookupKey_removeKey, if_neg (by decide)]

/-! ## Claim theorems: the size guardrail -/

/-- C3, amended: an in-budget record passes through untouched; an
over-budget record has all three large enumerable fields removed in one
step (not one at a time with an early stop), and `announcedApiNames`
survives exactly when the record fits the budget after that single
trimming step (and is dropped as the last resort otherwise). -/
theorem guardrail_drop_order (maxB : Nat) (itm : JObj) :
    (approxUtf8Bytes (.obj itm) ≤ maxB →
      (applyDdbSizeGuardrail maxB itm).item = itm
      ∧ (applyDdbSizeGuardrail maxB itm).truncated = false)
    ∧ (maxB < approxUtf8Bytes (.obj itm) →
      lookupKey (applyDdbSizeGuardrail maxB itm).item "unlockedApiNames" = none
      ∧ lookupKey (applyDdbSizeGuardrail maxB itm).item "lockedApiNames" = none
      ∧ lookupKey (applyDdbSizeGuardrail maxB itm).item "unannouncedUnlockedApiNames" = none
      ∧ lookupKey (applyDdbSizeGuardrail maxB itm).item "announcedApiNames" =
          (if approxUtf8Bytes (.obj (trimLargeArrays itm (approxUtf8Bytes (.obj itm)))) ≤ maxB
           then lookupKey itm "announcedApiNames" else none)) := by
  constructor
  · intro h1
    unfold applyDdbSizeGuardrail
    rw [if_pos h1]
    exact ⟨rfl, rfl⟩
  · intro h1
    unfold applyDdbSizeGuardrail
    rw [if_neg (by omega)]
    by_cases h2 : maxB < approxUtf8Bytes (.obj (trimLargeArrays itm (approxUtf8Bytes (.obj itm))))
    · rw [if_pos h2]
      show lookupKey (setKey (removeKey (trimLargeArrays itm _) "announcedApiNames")
          "announcedDropped" (.bool true)) "unlockedApiNames" = none ∧ _
      refine ⟨?_, ?_, ?_, ?_⟩
      · rw [lookupKey_setKey_ne _ _ _ _ (by decide), lookupKey_removeKey, if_neg (by decide)]
        unfold trimLargeArrays
        rw [lookupKey_setKey_ne _ _ _ _ (by decide), lookupKey_setKey_ne _ _ _ _ (by decide),
          lookupKey_removeKey, if_neg (by decide), lookupKey_removeKey, if_neg (by decide),
          lookupKey_removeKey, if_pos rfl]
      · rw [lookupKey_setKey_ne _ _ _ _ (by decide), lookupKey_removeKey, if_neg (by decide)]
        unfold trimLargeArrays
        rw [lookupKey_setKey_ne _ _ _ _ (by decide), lookupKey_setKey_ne _ _ _ _ (by decide),
          lookupKey_removeKey, if_neg (by decide), lookupKey_removeKey, if_pos rfl]
      · rw [lookupKey_setKey_ne _ _ _ _ (by decide), lookupKey_removeKey, if_neg (by decide)]
        unfold trimLargeArrays
        rw [lookupKey_setKey_ne _ _ _ _ (by decide), lookupKey_setKey_ne _ _ _ _ (by decide),
          lookupKey_removeKey, if_pos rfl]
      · rw [lookupKey_setKey_ne _ _ _ _ (by decide), lookupKey_removeKey, if_pos rfl,
          if_neg (by omega)]
    · rw [if_neg h2]
      show lookupKey (trimLargeArrays itm _) "unlockedApiNames" = none ∧ _
      refine ⟨?_, ?_, ?_, ?_⟩
      · unfold trimLargeArrays
        rw [lookupKey_setKey_ne _ _ _ _ (by decide), lookupKey_setKey_ne _ _ _ _ (by decide),
          lookupKey_removeKey, if_neg (by decide), lookupKey_removeKey, if_neg (by decide),
          lookupKey_removeKey, if_pos rfl]
      · unfold trimLargeArrays
        rw [lookupKey_setKey_ne _ _ _ _ (by decide), lookupKey_setKey_ne _ _ _ _ (by decide),
          lookupKey_removeKey, if_neg (by decide), lookupKey_removeKey, if_pos rfl]
      · unfold trimLargeArrays
        rw [lookupKey_setKey_ne _ _ _ _ (by decide), lookupKey_setKey_ne _ _ _ _ (by decide),
          lookupKey_removeKey, if_pos rfl]
      · rw [if_pos (by omega)]
        unfold trimLargeArrays
        rw [lookupKey_setKey_ne _ _ _ _ (by decide), lookupKey_setKey_ne _ _ _ _ (by decide),
          lookupKey_removeKey, if_neg (by decide), lookupKey_removeKey, if_neg (by decide),
          lookupKey_removeKey, if_neg (by decide)]

/-- Concrete record for the C3 analysis: its serialized size exceeds the
budget of 150 bytes, and dropping `unlockedApiNames` alone would already
bring it under budget. -/
def guardrailItemC3 : JObj :=
  [("PK", .str "p"),
   ("unlockedApiNames", .arr
     [.str "AAAAAAAAAAAAAAAAAAAAAAAAAAAAAAAAAAAAAAAAAAAAAAAAAA",
      .str "BBBBBBBBBBBBBBBBBBBBBBBBBBBBBBBBBBBBBBBBBBBBBBBBBB"]),
   ("lockedApiNames", .arr [.str "L1"]),
   ("announcedApiNames", .arr [.str "A1"])]

set_option maxRecDepth 100000

/-- C3, counterexample: this record is over budget, dropping only the
first field of the fixed order would already make it fit, yet the
guardrail also drops `lockedApiNames` — the later fields of the list are
not retained, so the drops are not performed one at a time with an early
stop. -/
theorem guardrail_prefix_counterexample :
    150 < approxUtf8Bytes (.obj guardrailItemC3)
    ∧ approxUtf8Bytes (.obj (removeKey guardrailItemC3 "unlockedApiNames")) ≤ 150
    ∧ lookupKey guardrailItemC3 "lockedApiNames" = some (.arr [.str "L1"])
    ∧ lookupKey (applyDdbSizeGuardrail 150 guardrailItemC3).item "lockedApiNames" = none := by
  exact ⟨by decide, by decide, rfl, rfl⟩

/-- C3, witness. -/
theorem guardrail_drop_order_witness :
    (applyDdbSizeGuardrail 10000 guardrailItemC3).item = guardrailItemC3 :=
  ((guardrail_drop_order 10000 guardrailItemC3).1 (by decide)).1

/-! ## Helper lemmas about the pipeline -/

theorem postLoop_no_save (send : Nat → Except String Unit) (k : Nat)
    (announced : List String) (todo : List UnlockedItem) (itm : JObj) :
    Effect.save itm ∉ (postLoop send k announced todo).1 := by
  induction todo generalizing k announced with
  | nil => simp [postLoop]
  | cons a rest ih =>
    unfold postLoop
    cases h : send k with
    | error e => simp
    | ok u => simpa using ih (k + 1) (insertUnique announced a.apiname)

theorem postLoop_ok_mem (send : Nat → Except String Unit) (k : Nat)
    (announced : List String) (todo : List UnlockedItem) (ann2 : List String)
    (h : (postLoop send k announced todo).2 = .ok ann2) (x : String) :
    x ∈ ann2 ↔ x ∈ announced ∨ ∃ a ∈ todo, a.apiname = x := by
  induction todo generalizing k announced with
  | nil =>
    simp only [postLoop] at h
    cases h
    simp
  | cons a rest ih =>
    unfold postLoop at h
    cases hs : send k with
    | error e => rw [hs] at h; simp at h
    | ok u =>
      rw [hs] at h
      rw [ih (k + 1) (insertUnique announced a.apiname) h, mem_insertUnique]
      simp only [List.mem_cons]
      constructor
      · rintro ((hx | rfl) | ⟨b, hb, rfl⟩)
        · exact Or.inl hx
        · exact Or.inr ⟨a, Or.inl rfl, rfl⟩
        · exact Or.inr ⟨b, Or.inr hb, rfl⟩
      · rintro (hx | ⟨b, hb | hb, rfl⟩)
        · exact Or.inl (Or.inl hx)
        · exact Or.inl (Or.inr (by rw [hb]))
        · exact Or.inr ⟨b, hb, rfl⟩

theorem save_not_mem_celebEffects (cfg : UserCfg) (env : Env) (p : List RawAch)
    (st : Option DbState) (tcgt : Option Nat × String) (itm : JObj) :
    Effect.save itm ∉ celebEffects cfg env p st tcgt := by
  unfold celebEffects
  by_cases hc : (gateStep (isPlatinumRun p tcgt.1) (loadedPlatinum st)
      (!(toPostRun cfg env p st).isEmpty)).1 = true
  · rw [if_pos hc]; simp
  · rw [if_neg hc]; simp

theorem persistStage_error_no_save (cfg : UserCfg) (env : Env) (target : Target)
    (p : List RawAch) (st : Option DbState) (tcgt : Option Nat × String)
    (announcedFinal : List String) (e : String)
    (h : (persistStage cfg env target p st tcgt announcedFinal).2 = .error e) (itm : JObj) :
    Effect.save itm ∉ (persistStage cfg env target p st tcgt announcedFinal).1 := by
  unfold persistStage at h ⊢
  cases hput : env.putState with
  | error e2 =>
    intro hmem
    rcases List.mem_append.mp hmem with hm | hm
    · exact postLoop_no_save _ _ _ _ itm hm
    · exact save_not_mem_celebEffects cfg env p st tcgt itm hm
  | ok u =>
    rw [hput] at h
    simp at h

theorem celebrateStage_error_no_save (cfg : UserCfg) (env : Env) (target : Target)
    (p : List RawAch) (st : Option DbState) (tcgt : Option Nat × String)
    (announcedFinal : List String) (e : String)
    (h : (celebrateStage cfg env target p st tcgt announcedFinal).2 = .error e) (itm : JObj) :
    Effect.save itm ∉ (celebrateStage cfg env target p st tcgt announcedFinal).1 := by
  unfold celebrateStage at h ⊢
  cases hcel : (if (gateStep (isPlatinumRun p tcgt.1) (loadedPlatinum st)
      (!(toPostRun cfg env p st).isEmpty)).1 then env.platinumSend else .ok ()) with
  | error e2 => exact postLoop_no_save _ _ _ _ itm
  | ok u =>
    rw [hcel] at h
    exact persistStage_error_no_save cfg env target p st tcgt announcedFinal e h itm

theorem loopStage_error_no_save (cfg : UserCfg) (env : Env) (target : Target)
    (p : List RawAch) (st : Option DbState) (tcgt : Option Nat × String) (e : String)
    (h : (loopStage cfg env target p st tcgt).2 = .error e) (itm : JObj) :
    Effect.save itm ∉ (loopStage cfg env target p st tcgt).1 := by
  unfold loopStage at h ⊢
  cases hpl : (postLoop env.discordSend 0 (announcedStartRun p st)
      (toPostRun cfg env p st)).2 with
  | error e2 => exact postLoop_no_save _ _ _ _ itm
  | ok announcedFinal =>
    rw [hpl] at h
    exact celebrateStage_error_no_save cfg env target p st tcgt announcedFinal e h itm

theorem processCore_error_no_save (cfg : UserCfg) (env : Env) (target : Target)
    (p : List RawAch) (st : Option DbState) (e : String)
    (h : (processCore cfg env target p st).2 = .error e) (itm : JObj) :
    Effect.save itm ∉ (processCore cfg env target p st).1 := by
  unfold processCore at h ⊢
  cases hss : schemaStep env target (toPostRun cfg env p st).isEmpty with
  | error e2 => simp
  | ok tcgt =>
    rw [hss] at h
    exact loopStage_error_no_save cfg env target p st tcgt e h itm

/-! ## Claim theorems: pipeline error handling -/

/-- C4, amended: a unit whose pipeline fails performs no ledger write —
the save only happens as the last step, after fetch, diff, every
notification and the celebration have all succeeded — but notifications
posted before the failing step have already been sent, so a failed unit
is not notification-free in general. -/
theorem failed_run_saves_nothing (cfg : UserCfg) (env : Env) (e : String)
    (h : (processOneUser cfg env).2 = .error e) :
    ∀ itm, Effect.save itm ∉ (processOneUser cfg env).1 := by
  intro itm
  unfold processOneUser at h ⊢
  cases hres : env.resolveGame with
  | error e2 => simp
  | ok tgt =>
    cases tgt with
    | none => simp
    | some target =>
      rw [hres] at h
      cases hpf : env.playerFetch with
      | error e2 => simp
      | ok pj =>
        rw [hpf] at h
        cases hst : env.getState with
        | error e2 => simp
        | ok st =>
          rw [hst] at h
          exact processCore_error_no_save cfg env target (pj.getD []) st e h itm

/-- Configuration for the C4 counterexample. -/
def c4cfg : UserCfg :=
  { name := "Ricky", steamId := "76561198000000000", windowSeconds := 60,
    maxItemBytes := 350000 }

/-- Environment for the C4 counterexample: two fresh recent unlocks, the
first webhook post succeeds and the second fails. -/
def c4env : Env :=
  { resolveGame := .ok (some ⟨"440", "Team Fortress 2"⟩),
    playerFetch := .ok (some [⟨"ACH_A", 1, some 90⟩, ⟨"ACH_B", 1, some 80⟩]),
    getState := .ok (some ⟨some [], none, false⟩),
    schemaFetch := .ok ⟨some "Team Fortress 2", 2⟩,
    rarityFetch := .ok (),
    discordSend := fun k => if k = 0 then .ok () else .error "Discord webhook error 500",
    platinumSend := .ok (),
    putState := .ok (),
    nowSec := 100 }

/-- C4, counterexample: the second webhook post fails, so the unit fails,
yet the first achievement was already announced — the run did perform a
notification, refuting "a failed unit performs no notification". -/
theorem failed_run_notified_counterexample :
    (processOneUser c4cfg c4env).2 = .error "Discord webhook error 500"
    ∧ Effect.notify "ACH_A" ∈ (processOneUser c4cfg c4env).1 := by
  refine ⟨rfl, ?_⟩
  show Effect.notify "ACH_A" ∈ [Effect.notify "ACH_A", Effect.logEvent "ACH_A"]
  exact List.Mem.head _

/-- C4, witness. -/
theorem failed_run_saves_nothing_witness :
    Effect.save [] ∉ (processOneUser c4cfg c4env).1 :=
  failed_run_saves_nothing c4cfg c4env "Discord webhook error 500" rfl []

/-- C2, amended: a non-success provider response (the fetch throws)
aborts the unit before any effect; but a successfully fetched body with
no achievement list — and likewise an empty list — is coerced by
`?? []` to the empty snapshot and processed by the diff exactly like a
valid zero-progress snapshot, not treated as a fetch failure. -/
theorem empty_snapshot_amended (cfg : UserCfg) (env : Env) (target : Target) (e : String)
    (hres : env.resolveGame = .ok (some target)) :
    (env.playerFetch = .error e → processOneUser cfg env = ([], .error e))
    ∧ (env.playerFetch = .ok none →
        processOneUser cfg env =
          processOneUser cfg { env with playerFetch := .ok (some ([] : List RawAch)) }) := by
  constructor
  · intro hpf
    unfold processOneUser
    rw [hres, hpf]
  · intro hpf
    unfold processOneUser
    rw [show ({ env with playerFetch := .ok (some ([] : List RawAch)) } : Env).resolveGame
        = env.resolveGame from rfl, hres, hpf]
    rfl

/-- Configuration for the C2 counterexample. -/
def c2cfg : UserCfg :=
  { name := "Ricky", steamId := "76561198000000001", windowSeconds := 900,
    maxItemBytes := 350000 }

/-- Environment for the C2 counterexample: the achievements endpoint
returns 200 with a malformed body (no `playerstats.achievements`), while
the prior ledger for the pair has one announced achievement. -/
def c2env : Env :=
  { resolveGame := .ok (some ⟨"620", "Portal 2"⟩),
    playerFetch := .ok none,
    getState := .ok (some ⟨some ["OLD1"], none, false⟩),
    schemaFetch := .error "Steam API error 500",
    rarityFetch := .error "Steam API error 500",
    discordSend := fun _ => .error "unused",
    platinumSend := .error "unused",
    putState := .ok (),
    nowSec := 1000 }

/-- C2, counterexample: the malformed snapshot does not abort the unit:
the run completes with ok and writes a ledger record derived from the
empty snapshot (zero progress), refuting "treated as a fetch failure
that aborts the pipeline". -/
theorem empty_snapshot_counterexample :
    (processOneUser c2cfg c2env).2 =
      .ok { ok := true, name := "Ricky", posted := 0, platinum := false,
            appid := some "620", gameTitle := some "Portal 2",
            progressText := some "0/0 (0%)", reason := none }
    ∧ ∃ itm, (processOneUser c2cfg c2env).1 = [Effect.save itm] :=
  ⟨rfl, ⟨_, rfl⟩⟩

/-- C2, witness. -/
theorem empty_snapshot_amended_witness :
    processOneUser c2cfg c2env =
      processOneUser c2cfg { c2env with playerFetch := .ok (some ([] : List RawAch)) } :=
  (empty_snapshot_amended c2cfg c2env ⟨"620", "Portal 2"⟩ "ignored" rfl).2 rfl

/-! ## Claim theorems: platinum detection (C5) -/

theorem processCore_ok_platinum (cfg : UserCfg) (env : Env) (target : Target)
    (p : List RawAch) (st : Option DbState) (r : RunResult)
    (h : (processCore cfg env target p st).2 = .ok r) :
    ∃ tcgt, schemaStep env target (toPostRun cfg env p st).isEmpty = .ok tcgt ∧
      r.platinum = isPlatinumRun p tcgt.1 := by
  unfold processCore at h
  cases hss : schemaStep env target (toPostRun cfg env p st).isEmpty with
  | error e => rw [hss] at h; simp at h
  | ok tcgt =>
    rw [hss] at h
    replace h : (loopStage cfg env target p st tcgt).2 = .ok r := h
    refine ⟨tcgt, rfl, ?_⟩
    unfold loopStage at h
    cases hpl : (postLoop env.discordSend 0 (announcedStartRun p st)
        (toPostRun cfg env p st)).2 with
    | error e => rw [hpl] at h; simp at h
    | ok announcedFinal =>
      rw [hpl] at h
      replace h : (celebrateStage cfg env target p st tcgt announcedFinal).2 = .ok r := h
      unfold celebrateStage at h
      cases hcel : (if (gateStep (isPlatinumRun p tcgt.1) (loadedPlatinum st)
          (!(toPostRun cfg env p st).isEmpty)).1 then env.platinumSend else .ok ()) with
      | error e => rw [hcel] at h; simp at h
      | ok u =>
        rw [hcel] at h
        replace h : (persistStage cfg env target p st tcgt announcedFinal).2 = .ok r := h
        unfold persistStage at h
        cases hput : env.putState with
        | error e => rw [hput] at h; simp at h
        | ok u2 =>
          rw [hput] at h
          simp at h
          subst h
          rfl

/-- C5, amended: the completion flag is not gated on a schema-known
total.  When nothing is posted this run the schema is never fetched and
the total falls back to unlockedCount + lockedCount from the player
list, so isComplete is true exactly when nothing is locked and something
is unlocked; only when something is posted does isComplete compare the
unlocked count against the schema total. -/
theorem isComplete_fallback (cfg : UserCfg) (env : Env) (target : Target)
    (p : List RawAch) (st : Option DbState) (r : RunResult)
    (hok : (processCore cfg env target p st).2 = .ok r) :
    (toPostRun cfg env p st = [] →
        (r.platinum = true ↔ lockedApiNamesOf p = [] ∧ ¬ unlockedApiNamesOf p = []))
    ∧ (∀ sch, env.schemaFetch = .ok sch → ¬ toPostRun cfg env p st = [] →
        (r.platinum = true ↔
          0 < sch.totalCount ∧ (unlockedApiNamesOf p).length = sch.totalCount)) := by
  obtain ⟨tcgt, hss, hplat⟩ := processCore_ok_platinum cfg env target p st r hok
  constructor
  · intro hempty
    have hie : (toPostRun cfg env p st).isEmpty = true := by rw [hempty]; rfl
    rw [hie] at hss
    have htc : tcgt = (none, target.gameTitle) := by
      have h2 := hss
      simp [schemaStep] at h2
      exact h2.symm
    rw [hplat, htc]
    have h1 : (lockedApiNamesOf p = []) ↔ (lockedApiNamesOf p).length = 0 :=
      List.length_eq_zero.symm
    have h2 : (¬ unlockedApiNamesOf p = []) ↔ ¬ (unlockedApiNamesOf p).length = 0 := by
      rw [List.length_eq_zero]
    rw [h1, h2]
    simp only [isPlatinumRun, totalAchievementsRun, Option.getD, Bool.and_eq_true,
      decide_eq_true_eq]
    omega
  · intro sch hsch hne
    have hie : (toPostRun cfg env p st).isEmpty = false := by
      cases hl : toPostRun cfg env p st with
      | nil => exact absurd hl hne
      | cons a t => rfl
    rw [hie] at hss
    unfold schemaStep at hss
    rw [if_neg (by simp)] at hss
    rw [hsch] at hss
    cases hrar : env.rarityFetch with
    | error e => rw [hrar] at hss; simp at hss
    | ok u =>
      rw [hrar] at hss
      simp only [Except.ok.injEq] at hss
      rw [hplat, ← hss]
      simp only [isPlatinumRun, totalAchievementsRun, Option.getD, Bool.and_eq_true,
        decide_eq_true_eq]

/-- Configuration for the C5 counterexample. -/
def c5cfg : UserCfg :=
  { name := "Ricky", steamId := "76561198000000002", windowSeconds := 900,
    maxItemBytes := 350000 }

/-- Environment for the C5 counterexample: the single achievement of the
pair is unlocked long ago and already announced, so nothing is posted
and the schema (the only source of a known totalCount) is never
fetched — its outcome is an error to prove it is not consulted. -/
def c5env : Env :=
  { resolveGame := .ok (some ⟨"400", "Portal"⟩),
    playerFetch := .ok (some [⟨"ACH_ONLY", 1, some 5⟩]),
    getState := .ok (some ⟨some ["ACH_ONLY"], none, false⟩),
    schemaFetch := .error "schema never fetched",
    rarityFetch := .error "rarity never fetched",
    discordSend := fun _ => .error "unused",
    platinumSend := .error "unused",
    putState := .ok (),
    nowSec := 100000 }

/-- C5, counterexample: totalCount is unknown (the schema fetch is never
consulted), yet the run reports isComplete = true through the
unlocked+locked fallback, refuting "when totalCount is unknown, the
isComplete result is false". -/
theorem unknown_total_platinum_counterexample :
    c5env.schemaFetch = .error "schema never fetched"
    ∧ ∃ r, (processOneUser c5cfg c5env).2 = .ok r ∧ r.platinum = true :=
  ⟨rfl, ⟨_, rfl, rfl⟩⟩

/-- C5, witness. -/
theorem isComplete_fallback_witness :
    ∃ r, (processCore c5cfg c5env ⟨"400", "Portal"⟩ [⟨"ACH_ONLY", 1, some 5⟩]
        (some ⟨some ["ACH_ONLY"], none, false⟩)).2 = .ok r ∧
      (r.platinum = true ↔ lockedApiNamesOf [⟨"ACH_ONLY", 1, some 5⟩] = [] ∧
        ¬ unlockedApiNamesOf [⟨"ACH_ONLY", 1, some 5⟩] = []) := by
  refine ⟨_, rfl, ?_⟩
  exact (isComplete_fallback c5cfg c5env ⟨"400", "Portal"⟩ [⟨"ACH_ONLY", 1, some 5⟩]
    (some ⟨some ["ACH_ONLY"], none, false⟩) _ rfl).1 rfl

/-! ## Claim theorems: announced-set monotonicity (C8) -/

theorem lookupKey_guardrail_announced (maxB : Nat) (itm : JObj) :
    lookupKey (applyDdbSizeGuardrail maxB itm).item "announcedApiNames" = none ∨
    lookupKey (applyDdbSizeGuardrail maxB itm).item "announcedApiNames" =
      lookupKey itm "announcedApiNames" := by
  unfold applyDdbSizeGuardrail
  by_cases h1 : approxUtf8Bytes (.obj itm) ≤ maxB
  · rw [if_pos h1]
    exact Or.inr rfl
  · rw [if_neg h1]
    by_cases h2 : maxB < approxUtf8Bytes (.obj (trimLargeArrays itm (approxUtf8Bytes (.obj itm))))
    · rw [if_pos h2]
      refine Or.inl ?_
      show lookupKey (setKey (removeKey (trimLargeArrays itm _) "announcedApiNames")
        "announcedDropped" (.bool true)) "announcedApiNames" = none
      rw [lookupKey_setKey_ne _ _ _ _ (by decide), lookupKey_removeKey, if_pos rfl]
    · rw [if_neg h2]
      refine Or.inr ?_
      show lookupKey (trimLargeArrays itm _) "announcedApiNames" = _
      unfold trimLargeArrays
      rw [lookupKey_setKey_ne _ _ _ _ (by decide), lookupKey_setKey_ne _ _ _ _ (by decide),
        lookupKey_removeKey, if_neg (by decide), lookupKey_removeKey, if_neg (by decide),
        lookupKey_removeKey, if_neg (by decide)]

theorem lookupKey_runItem_announced (cfg : UserCfg) (env : Env) (target : Target)
    (p : List RawAch) (st : Option DbState) (tc : Option Nat) (gt : String)
    (announcedFinal : List String) :
    lookupKey (runItem cfg env target p st tc gt announcedFinal) "announcedApiNames" =
      some (.arr (announcedFinal.map JVal.str)) := rfl

theorem persistStage_save_shape (cfg : UserCfg) (env : Env) (target : Target)
    (p : List RawAch) (st : Option DbState) (tcgt : Option Nat × String)
    (announcedFinal : List String) (itm : JObj)
    (hsave : Effect.save itm ∈ (persistStage cfg env target p st tcgt announcedFinal).1) :
    itm = (applyDdbSizeGuardrail cfg.maxItemBytes
      (runItem cfg env target p st tcgt.1 tcgt.2 announcedFinal)).item := by
  unfold persistStage at hsave
  cases hput : env.putState with
  | error e =>
    rw [hput] at hsave
    rcases List.mem_append.mp hsave with hm | hm
    · exact absurd hm (postLoop_no_save _ _ _ _ itm)
    · exact absurd hm (save_not_mem_celebEffects cfg env p st tcgt itm)
  | ok u =>
    rw [hput] at hsave
    rcases List.mem_append.mp hsave with hm | hm
    · rcases List.mem_append.mp hm with hm2 | hm2
      · exact absurd hm2 (postLoop_no_save _ _ _ _ itm)
      · exact absurd hm2 (save_not_mem_celebEffects cfg env p st tcgt itm)
    · simpa using hm

theorem loopStage_save_shape (cfg : UserCfg) (env : Env) (target : Target)
    (p : List RawAch) (st : Option DbState) (tcgt : Option Nat × String) (itm : JObj)
    (hsave : Effect.save itm ∈ (loopStage cfg env target p st tcgt).1) :
    ∃ announcedFinal,
      (postLoop env.discordSend 0 (announcedStartRun p st) (toPostRun cfg env p st)).2 =
        .ok announcedFinal ∧
      itm = (applyDdbSizeGuardrail cfg.maxItemBytes
        (runItem cfg env target p st tcgt.1 tcgt.2 announcedFinal)).item := by
  unfold loopStage at hsave
  cases hpl : (postLoop env.discordSend 0 (announcedStartRun p st)
      (toPostRun cfg env p st)).2 with
  | error e =>
    rw [hpl] at hsave
    exact absurd hsave (postLoop_no_save _ _ _ _ itm)
  | ok announcedFinal =>
    rw [hpl] at hsave
    replace hsave : Effect.save itm ∈
      (celebrateStage cfg env target p st tcgt announcedFinal).1 := hsave
    unfold celebrateStage at hsave
    cases hcel : (if (gateStep (isPlatinumRun p tcgt.1) (loadedPlatinum st)
        (!(toPostRun cfg env p st).isEmpty)).1 then env.platinumSend else .ok ()) with
    | error e =>
      rw [hcel] at hsave
      exact absurd hsave (postLoop_no_save _ _ _ _ itm)
    | ok u =>
      rw [hcel] at hsave
      exact ⟨announcedFinal, rfl,
        persistStage_save_shape cfg env target p st tcgt announcedFinal itm hsave⟩

theorem processOneUser_save_shape (cfg : UserCfg) (env : Env) (itm : JObj)
    (hsave : Effect.save itm ∈ (processOneUser cfg env).1) :
    ∃ (target : Target) (pj : Option (List RawAch)) (st : Option DbState)
      (tcgt : Option Nat × String) (announcedFinal : List String),
      env.resolveGame = .ok (some target) ∧ env.playerFetch = .ok pj ∧
      env.getState = .ok st ∧
      (postLoop env.discordSend 0 (announcedStartRun (pj.getD []) st)
        (toPostRun cfg env (pj.getD []) st)).2 = .ok announcedFinal ∧
      itm = (applyDdbSizeGuardrail cfg.maxItemBytes
        (runItem cfg env target (pj.getD []) st tcgt.1 tcgt.2 announcedFinal)).item := by
  unfold processOneUser at hsave
  cases hres : env.resolveGame with
  | error e => rw [hres] at hsave; simp at hsave
  | ok tgt =>
    cases tgt with
    | none => rw [hres] at hsave; simp at hsave
    | some target =>
      rw [hres] at hsave
      cases hpf : env.playerFetch with
      | error e => rw [hpf] at hsave; simp at hsave
      | ok pj =>
        rw [hpf] at hsave
        cases hst : env.getState with
        | error e => rw [hst] at hsave; simp at hsave
        | ok st =>
          rw [hst] at hsave
          replace hsave : Effect.save itm ∈
            (processCore cfg env target (pj.getD []) st).1 := hsave
          unfold processCore at hsave
          cases hss : schemaStep env target (toPostRun cfg env (pj.getD []) st).isEmpty with
          | error e => rw [hss] at hsave; simp at hsave
          | ok tcgt =>
            rw [hss] at hsave
            replace hsave : Effect.save itm ∈
              (loopStage cfg env target (pj.getD []) st tcgt).1 := hsave
            obtain ⟨announcedFinal, hpl, hitm⟩ :=
              loopStage_save_shape cfg env target (pj.getD []) st tcgt itm hsave
            exact ⟨target, pj, st, tcgt, announcedFinal, rfl, rfl, rfl, hpl, hitm⟩

theorem mem_announcedStartRun (p : List RawAch) (st : Option DbState) (x : String) :
    x ∈ announcedStartRun p st ↔
      (st.isSome = true ∧ x ∈ loadedAnnounced st) ∨
      (st.isSome = false ∧ x ∈ unlockedApiNamesOf p) := by
  unfold announcedStartRun announcedStartOf
  cases st with
  | none => simp [mem_setOfList, loadedAnnounced, Option.isSome]
  | some d => simp [mem_setOfList, Option.isSome]

theorem toPostRun_apiname_mem (cfg : UserCfg) (env : Env) (p : List RawAch)
    (st : Option DbState) (a : UnlockedItem) (h : a ∈ toPostRun cfg env p st) :
    a.apiname ∈ unlockedApiNamesOf p := by
  have h2 : a ∈ diffToPost p st.isSome (loadedAnnounced st) cfg.windowSeconds env.nowSec := h
  exact mem_apiname_of_mem_unlocked p a
    ((mem_recentUnlockedOf _ _ _).mp
      (diffToPost_subset_recent p st.isSome (loadedAnnounced st)
        cfg.windowSeconds env.nowSec a h2)).1

/-- C8: whenever a run saves the ledger, the persisted announcedApiNames
list (when the guardrail did not drop it as the explicit last resort, in
which case the field is absent) contains every apiId loaded at the start
of the run and only apiIds that were loaded or observed unlocked in this
snapshot. -/
theorem announced_set_monotonic (cfg : UserCfg) (env : Env) (itm : JObj)
    (hsave : Effect.save itm ∈ (processOneUser cfg env).1) :
    ∃ pj st, env.playerFetch = .ok pj ∧ env.getState = .ok st ∧
      (lookupKey itm "announcedApiNames" = none ∨
       ∃ ann : List String,
         lookupKey itm "announcedApiNames" = some (.arr (ann.map JVal.str)) ∧
         (∀ x ∈ loadedAnnounced st, x ∈ ann) ∧
         (∀ x ∈ ann, x ∈ loadedAnnounced st ∨ x ∈ unlockedApiNamesOf (pj.getD []))) := by
  obtain ⟨target, pj, st, tcgt, announcedFinal, hres, hpf, hst, hpl, hitm⟩ :=
    processOneUser_save_shape cfg env itm hsave
  refine ⟨pj, st, hpf, hst, ?_⟩
  rcases lookupKey_guardrail_announced cfg.maxItemBytes
      (runItem cfg env target (pj.getD []) st tcgt.1 tcgt.2 announcedFinal) with hnone | hpres
  · rw [hitm]
    exact Or.inl hnone
  · refine Or.inr ⟨announcedFinal, ?_, ?_, ?_⟩
    · rw [hitm, hpres, lookupKey_runItem_announced]
    · intro x hx
      rw [postLoop_ok_mem _ _ _ _ _ hpl x]
      refine Or.inl ?_
      rw [mem_announcedStartRun]
      cases st with
      | none => simp [loadedAnnounced] at hx
      | some d => exact Or.inl ⟨rfl, hx⟩
    · intro x hx
      rw [postLoop_ok_mem _ _ _ _ _ hpl x] at hx
      rcases hx with hx | ⟨a, ha, rfl⟩
      · rw [mem_announcedStartRun] at hx
        rcases hx with ⟨hsome, hx⟩ | ⟨hnone2, hx⟩
        · exact Or.inl hx
        · exact Or.inr hx
      · exact Or.inr (toPostRun_apiname_mem cfg env (pj.getD []) st a ha)

/-- Configuration for the C8 witness. -/
def c8cfg : UserCfg :=
  { name := "Ricky", steamId := "76561198000000003", windowSeconds := 60,
    maxItemBytes := 350000 }

/-- Environment for the C8 witness: one old, already announced unlock;
nothing is posted and the record is saved. -/
def c8env : Env :=
  { resolveGame := .ok (some ⟨"10", "Counter-Strike"⟩),
    playerFetch := .ok (some [⟨"ACH_OLD", 1, some 5⟩]),
    getState := .ok (some ⟨some ["ACH_OLD"], none, false⟩),
    schemaFetch := .error "unused",
    rarityFetch := .error "unused",
    discordSend := fun _ => .error "unused",
    platinumSend := .error "unused",
    putState := .ok (),
    nowSec := 1000 }

set_option maxHeartbeats 1000000

/-- C8, witness. -/
theorem announced_set_monotonic_witness :
    ∃ itm, Effect.save itm ∈ (processOneUser c8cfg c8env).1 ∧
      ∃ pj st, c8env.playerFetch = .ok pj ∧ c8env.getState = .ok st ∧
        (lookupKey itm "announcedApiNames" = none ∨
         ∃ ann : List String,
           lookupKey itm "announcedApiNames" = some (.arr (ann.map JVal.str)) ∧
           (∀ x ∈ loadedAnnounced st, x ∈ ann) ∧
           (∀ x ∈ ann, x ∈ loadedAnnounced st ∨ x ∈ unlockedApiNamesOf (pj.getD []))) :=
  ⟨_, List.Mem.head _, announced_set_monotonic c8cfg c8env _ (List.Mem.head _)⟩

/-! ## Claim theorems: the batch runner (C9) -/

/-- The invariant maintained by every pool transition: the counter stays
in range, every written slot holds the settled worker outcome for its own
index, every handed-out index is either written or held by some runner,
held indices are below the counter, and a done runner means the counter
is exhausted. -/
structure PoolInv {α β : Type} (worker : α → Except String β) (items : List α)
    (k : Nat) (s : PoolState β) : Prop where
  runners_len : s.runners.length = k
  results_len : s.results.length = items.length
  idx_le : s.idx ≤ items.length
  filled_correct : ∀ (i : Nat) (v : SlotResult β), s.results[i]? = some (some v) →
    ∃ it, items[i]? = some it ∧ v = settle worker it
  covered : ∀ i : Nat, i < s.idx →
    (∃ v, s.results[i]? = some (some v)) ∨
      ∃ r : Nat, s.runners[r]? = some (RunnerState.working i)
  working_lt : ∀ r i : Nat, s.runners[r]? = some (RunnerState.working i) → i < s.idx
  done_idx : ∀ r : Nat, s.runners[r]? = some RunnerState.done → s.idx = items.length

theorem poolInv_init {α β : Type} (worker : α → Except String β) (items : List α)
    (c : Nat) : PoolInv worker items (min c items.length) (initPool β c items) := by
  constructor
  · exact List.length_replicate _ _
  · exact List.length_replicate _ _
  · exact Nat.zero_le _
  · intro i v h
    simp only [initPool, List.getElem?_replicate] at h
    by_cases hi : i < items.length
    · rw [if_pos hi] at h
      simp at h
    · rw [if_neg hi] at h
      simp at h
  · intro i hi
    exact absurd hi (Nat.not_lt_zero i)
  · intro r i h
    simp only [initPool, List.getElem?_replicate] at h
    by_cases hr : r < min c items.length
    · rw [if_pos hr] at h
      simp at h
    · rw [if_neg hr] at h
      simp at h
  · intro r h
    simp only [initPool, List.getElem?_replicate] at h
    by_cases hr : r < min c items.length
    · rw [if_pos hr] at h
      simp at h
    · rw [if_neg hr] at h
      simp at h

theorem poolStep_idx_mono {α β : Type} (worker : α → Except String β) (items : List α)
    (a : PoolAction) (s s2 : PoolState β) (hstep : poolStep worker items a s = some s2) :
    s.idx ≤ s2.idx := by
  cases a with
  | grab r =>
    cases hr : s.runners[r]? with
    | none => simp [poolStep, hr] at hstep
    | some rs =>
      cases rs with
      | idle =>
        simp only [poolStep, hr] at hstep
        by_cases hlt : s.idx < items.length
        · rw [if_pos hlt] at hstep
          injection hstep with hstep
          subst hstep
          exact Nat.le_succ _
        · rw [if_neg hlt] at hstep
          injection hstep with hstep
          subst hstep
          exact Nat.le_refl _
      | working i => simp [poolStep, hr] at hstep
      | done => simp [poolStep, hr] at hstep
  | finish r =>
    cases hr : s.runners[r]? with
    | none => simp [poolStep, hr] at hstep
    | some rs =>
      cases rs with
      | idle => simp [poolStep, hr] at hstep
      | working i =>
        cases hit : items[i]? with
        | none => simp [poolStep, hr, hit] at hstep
        | some it =>
          simp only [poolStep, hr, hit] at hstep
          injection hstep with hstep
          subst hstep
          exact Nat.le_refl _
      | done => simp [poolStep, hr] at hstep

theorem poolInv_step {α β : Type} (worker : α → Except String β) (items : List α)
    (k : Nat) (a : PoolAction) (s s2 : PoolState β)
    (hstep : poolStep worker items a s = some s2)
    (hinv : PoolInv worker items k s) : PoolInv worker items k s2 := by
  obtain ⟨hrl, hresl, hle, hfc, hcov, hwlt, hdone⟩ := hinv
  cases a with
  | grab r =>
    cases hr : s.runners[r]? with
    | none => simp [poolStep, hr] at hstep
    | some rs =>
      cases rs with
      | working i => simp [poolStep, hr] at hstep
      | done => simp [poolStep, hr] at hstep
      | idle =>
        have hrlen : r < s.runners.length := (List.getElem?_eq_some.mp hr).1
        simp only [poolStep, hr] at hstep
        by_cases hlt : s.idx < items.length
        · rw [if_pos hlt] at hstep
          injection hstep with hstep
          subst hstep
          constructor
          · simpa [List.length_set] using hrl
          · exact hresl
          · exact hlt
          · exact hfc
          · intro i hi
            rcases Nat.lt_succ_iff_lt_or_eq.mp hi with hi2 | hi2
            · rcases hcov i hi2 with hfil | ⟨r2, hr2⟩
              · exact Or.inl hfil
              · have hne : r2 ≠ r := by
                  intro he
                  rw [he, hr] at hr2
                  simp at hr2
                exact Or.inr ⟨r2, by rwa [List.getElem?_set_ne (fun he => hne he.symm)]⟩
            · subst hi2
              exact Or.inr ⟨r, by rw [List.getElem?_set_eq_of_lt _ hrlen]⟩
          · intro r2 i h2
            by_cases he : r = r2
            · subst he
              rw [List.getElem?_set_eq_of_lt _ hrlen] at h2
              simp only [Option.some.injEq] at h2
              cases h2
              exact Nat.lt_succ_self _
            · rw [List.getElem?_set_ne he] at h2
              exact Nat.lt_succ_of_lt (hwlt r2 i h2)
          · intro r2 h2
            by_cases he : r = r2
            · subst he
              rw [List.getElem?_set_eq_of_lt _ hrlen] at h2
              simp at h2
            · rw [List.getElem?_set_ne he] at h2
              exact absurd hlt (by rw [hdone r2 h2]; exact Nat.lt_irrefl _)
        · rw [if_neg hlt] at hstep
          injection hstep with hstep
          subst hstep
          constructor
          · simpa [List.length_set] using hrl
          · exact hresl
          · exact hle
          · exact hfc
          · intro i hi
            rcases hcov i hi with hfil | ⟨r2, hr2⟩
            · exact Or.inl hfil
            · have hne : r2 ≠ r := by
                intro he
                rw [he, hr] at hr2
                simp at hr2
              exact Or.inr ⟨r2, by rwa [List.getElem?_set_ne (fun he => hne he.symm)]⟩
          · intro r2 i h2
            by_cases he : r = r2
            · subst he
              rw [List.getElem?_set_eq_of_lt _ hrlen] at h2
              simp at h2
            · rw [List.getElem?_set_ne he] at h2
              exact hwlt r2 i h2
          · intro r2 h2
            show s.idx = items.length
            omega
  | finish r =>
    cases hr : s.runners[r]? with
    | none => simp [poolStep, hr] at hstep
    | some rs =>
      cases rs with
      | idle => simp [poolStep, hr] at hstep
      | done => simp [poolStep, hr] at hstep
      | working i =>
        have hrlen : r < s.runners.length := (List.getElem?_eq_some.mp hr).1
        have hilen : i < items.length := Nat.lt_of_lt_of_le (hwlt r i hr) hle
        have hireslen : i < s.results.length := by rwa [hresl]
        cases hit : items[i]? with
        | none => simp [poolStep, hr, hit] at hstep
        | some it =>
          simp only [poolStep, hr, hit] at hstep
          injection hstep with hstep
          subst hstep
          constructor
          · simpa [List.length_set] using hrl
          · simpa [List.length_set] using hresl
          · exact hle
          · intro j v hj
            by_cases he : i = j
            · subst he
              rw [List.getElem?_set_eq_of_lt _ hireslen] at hj
              simp only [Option.some.injEq] at hj
              exact ⟨it, hit, by rw [← hj]⟩
            · rw [List.getElem?_set_ne he] at hj
              exact hfc j v hj
          · intro j hj
            by_cases he : i = j
            · subst he
              exact Or.inl ⟨settle worker it, by rw [List.getElem?_set_eq_of_lt _ hireslen]⟩
            · rcases hcov j hj with hfil | ⟨r2, hr2⟩
              · rcases hfil with ⟨v, hv⟩
                exact Or.inl ⟨v, by rwa [List.getElem?_set_ne he]⟩
              · have hne : r2 ≠ r := by
                  intro he2
                  rw [he2, hr] at hr2
                  simp only [Option.some.injEq] at hr2
                  cases hr2
                  exact he rfl
                exact Or.inr ⟨r2, by rwa [List.getElem?_set_ne (fun he2 => hne he2.symm)]⟩
          · intro r2 j h2
            by_cases he : r = r2
            · subst he
              rw [List.getElem?_set_eq_of_lt _ hrlen] at h2
              simp at h2
            · rw [List.getElem?_set_ne he] at h2
              exact hwlt r2 j h2
          · intro r2 h2
            by_cases he : r = r2
            · subst he
              rw [List.getElem?_set_eq_of_lt _ hrlen] at h2
              simp at h2
            · rw [List.getElem?_set_ne he] at h2
              exact hdone r2 h2

theorem poolRun_inv {α β : Type} (worker : α → Except String β) (items : List α)
    (k : Nat) (trace : List PoolAction) (s s2 : PoolState β)
    (hrun : poolRun worker items trace s = some s2)
    (hinv : PoolInv worker items k s) : PoolInv worker items k s2 := by
  induction trace generalizing s with
  | nil =>
    simp only [poolRun, Option.some.injEq] at hrun
    subst hrun
    exact hinv
  | cons a rest ih =>
    unfold poolRun at hrun
    cases hstep : poolStep worker items a s with
    | none => rw [hstep] at hrun; simp at hrun
    | some s3 =>
      rw [hstep] at hrun
      exact ih s3 hrun (poolInv_step worker items k a s s3 hstep hinv)

theorem mem_grabHead {α β : Type} (items : List α) (a : PoolAction) (s : PoolState β)
    (x : Nat) (hx : x ∈ grabHead items a s) : x = s.idx := by
  cases a with
  | grab r =>
    simp only [grabHead] at hx
    by_cases hc : s.runners[r]? = some RunnerState.idle ∧ s.idx < items.length
    · rw [if_pos hc] at hx
      simpa using hx
    · rw [if_neg hc] at hx
      simp at hx
  | finish r => simp [grabHead] at hx

theorem grabAssignments_ge {α β : Type} (worker : α → Except String β) (items : List α)
    (trace : List PoolAction) (s : PoolState β) :
    ∀ x ∈ grabAssignments worker items trace s, s.idx ≤ x := by
  induction trace generalizing s with
  | nil => intro x hx; simp [grabAssignments] at hx
  | cons a rest ih =>
    intro x hx
    unfold grabAssignments at hx
    cases hstep : poolStep worker items a s with
    | none => rw [hstep] at hx; simp at hx
    | some s2 =>
      rw [hstep] at hx
      replace hx : x ∈ grabHead items a s ++ grabAssignments worker items rest s2 := hx
      have hmono := poolStep_idx_mono worker items a s s2 hstep
      rcases List.mem_append.mp hx with hx2 | hx2
      · rw [mem_grabHead items a s x hx2]
      · exact le_trans hmono (ih s2 x hx2)

theorem grabAssignments_sorted {α β : Type} (worker : α → Except String β) (items : List α)
    (trace : List PoolAction) (s : PoolState β) :
    (grabAssignments worker items trace s).Pairwise (· < ·) := by
  induction trace generalizing s with
  | nil => simp [grabAssignments]
  | cons a rest ih =>
    unfold grabAssignments
    cases hstep : poolStep worker items a s with
    | none => simp
    | some s2 =>
      refine List.pairwise_append.mpr ⟨?_, ih s2, ?_⟩
      · cases a with
        | grab r =>
          simp only [grabHead]
          by_cases hc : s.runners[r]? = some RunnerState.idle ∧ s.idx < items.length
          · rw [if_pos hc]
            simp
          · rw [if_neg hc]
            simp
        | finish r => simp [grabHead]
      · intro x hx y hy
        have hxidx : x = s.idx := mem_grabHead items a s x hx
        have hy2 := grabAssignments_ge worker items rest s2 y hy
        have hidx : s2.idx = s.idx + 1 := by
          have hxcopy := hx
          cases a with
          | grab r =>
            simp only [grabHead] at hxcopy
            by_cases hc : s.runners[r]? = some RunnerState.idle ∧ s.idx < items.length
            · simp only [poolStep, hc.1] at hstep
              rw [if_pos hc.2] at hstep
              injection hstep with hstep
              subst hstep
              rfl
            · rw [if_neg hc] at hxcopy
              simp at hxcopy
          | finish r => simp [grabHead] at hxcopy
        omega

/-- C9, amended: for every item list, pure worker and concurrency limit
of at least one, every schedule of the pool that runs to completion
(all runners returned) produces a result list positionally aligned with
the input: slot i holds exactly the settled outcome of the worker on
item i — an {ok: false, error} record when that worker throws, without
affecting any other slot — and the counter hands out each index at most
once (the grabbed indices are pairwise distinct), so every unit is
attempted exactly once. -/
theorem runWithConcurrency_spec {α β : Type} (worker : α → Except String β)
    (items : List α) (c : Nat) (trace : List PoolAction) (s : PoolState β)
    (hc : 1 ≤ c) (hrun : poolRun worker items trace (initPool β c items) = some s)
    (hfin : isFinal s = true) :
    s.results.length = items.length
    ∧ (∀ i (h : i < items.length),
        s.results[i]? = some (some (settle worker (items.get ⟨i, h⟩))))
    ∧ (grabAssignments worker items trace (initPool β c items)).Pairwise (· ≠ ·) := by
  obtain ⟨hrl, hresl, hle, hfc, hcov, hwlt, hdone⟩ :=
    poolRun_inv worker items (min c items.length) trace (initPool β c items) s hrun
      (poolInv_init worker items c)
  refine ⟨hresl, ?_, (grabAssignments_sorted worker items trace _).imp Nat.ne_of_lt⟩
  intro i h
  have hidx : s.idx = items.length := by
    cases hitems : items with
    | nil =>
      rw [hitems] at hle
      simpa using Nat.le_zero.mp (by simpa using hle)
    | cons a t =>
      have hpos : 0 < s.runners.length := by
        rw [hrl, hitems]
        simp [Nat.lt_min]
        omega
      have h0 : s.runners[0]? = some s.runners[0] := List.getElem?_eq_getElem hpos
      have hall := List.all_eq_true.mp hfin s.runners[0] (List.getElem?_mem h0)
      have hdone0 : s.runners[0] = RunnerState.done := by
        revert hall
        cases s.runners[0] <;> simp
      rw [← hitems]
      exact hdone 0 (by rw [h0, hdone0])
  rcases hcov i (by omega) with ⟨v, hv⟩ | ⟨r2, hr2⟩
  · obtain ⟨it, hit, hvit⟩ := hfc i v hv
    have : it = items.get ⟨i, h⟩ := by
      rw [List.getElem?_eq_getElem h] at hit
      simp only [Option.some.injEq] at hit
      rw [← hit, List.get_eq_getElem]
    rw [hv, hvit, this]
  · have hmem := List.getElem?_mem hr2
    have hall := List.all_eq_true.mp hfin _ hmem
    simp at hall

/-- C9, counterexample: with concurrency limit 0 and one unit, the pool
has no runners, so the empty schedule is already complete
(`Promise.all([])` resolves at once) while the single result slot was
never written and the unit never attempted — refuting the claim for
every concurrency limit. -/
theorem batch_zero_concurrency_counterexample :
    poolRun (fun u => Except.ok u) ["unit"] [] (initPool String 0 ["unit"]) =
      some (initPool String 0 ["unit"])
    ∧ isFinal (initPool String 0 ["unit"]) = true
    ∧ (initPool String 0 ["unit"]).results[0]? = some none :=
  ⟨rfl, rfl, rfl⟩

/-- C9, witness: a single runner processes two units to completion, one
worker outcome being a throw that is recorded in its own slot. -/
theorem runWithConcurrency_spec_witness :
    (let worker : Nat → Except String Nat :=
      fun n => if n = 1 then .ok 10 else .error "boom"
     let items : List Nat := [1, 2]
     let trace : List PoolAction :=
      [.grab 0, .finish 0, .grab 0, .finish 0, .grab 0]
     ∃ s, poolRun worker items trace (initPool Nat 1 items) = some s ∧
       s.results.length = items.length ∧
       (∀ i (h : i < items.length),
         s.results[i]? = some (some (settle worker (items.get ⟨i, h⟩))))) := by
  refine ⟨_, rfl, ?_⟩
  have h := runWithConcurrency_spec (fun n => if n = 1 then .ok 10 else .error "boom")
    [1, 2] 1 [.grab 0, .finish 0, .grab 0, .finish 0, .grab 0] _ (by decide) rfl rfl
  exact ⟨h.1, h.2.1⟩

end PlatinumBot
